import Mathlib

/-
Shallow embedding of the UE-Event-Manager repository
(src/GameEventManager.h, src/GameEventManager.cpp).

The repository implements a data-table-driven event manager:
- `EventArgType` is `TVariant<int, float, double, FString, FName, bool,
  FVector, FVector2D, FRotator, UObject*, AActor*, uint8, FEventArgStruct*>`;
  schema matching compares variant indices (`GetIndex`).
- `UGameEvent` holds an ordered `TArray<CEventArg>` of named typed slots,
  a multicast delegate (the subscriber list), a fill counter
  `m_argsCounter : int` (sentinel -1 = aborted), and a name.
- `UGameEventManager` holds a `TMap<FName, UGameEvent*>` built from
  data-table rows.

Engine value types carry no arithmetic in this code (values are only
stored and compared by variant index), so float/vector payloads are
modelled by an opaque integer carrier (a bit-pattern stand-in); object,
actor and struct pointers by `Option Nat` (`none` = nullptr); `FName`
and `FString` by `String`. `UE_LOG(Error, ...)` reports are modelled as
an explicit error list; delegate `Broadcast` invocations as an explicit
call log pairing each subscriber with the event state it is invoked with.
-/

set_option autoImplicit false

namespace GEM

/-- Models `EventArgType = TVariant<int, float, double, FString, FName, bool,
FVector, FVector2D, FRotator, UObject*, AActor*, uint8, FEventArgStruct*>`
(GameEventManager.h line 75): a tagged union holding one value. -/
inductive EventArgValue where
  | int (v : Int)
  | float (v : Int)
  | double (v : Int)
  | fstring (s : String)
  | fname (s : String)
  | bool (b : Bool)
  | fvector (x y z : Int)
  | fvector2d (x y : Int)
  | frotator (p ya r : Int)
  | uobject (p : Option Nat)
  | aactor (p : Option Nat)
  | uint8 (v : Nat)
  | structPtr (p : Option Nat)
deriving DecidableEq, Repr

/-- Models `TVariant::GetIndex()`: the index of the active alternative, in
the declaration order of the `TVariant` template arguments. -/
def EventArgValue.index : EventArgValue → Nat
  | .int _ => 0
  | .float _ => 1
  | .double _ => 2
  | .fstring _ => 3
  | .fname _ => 4
  | .bool _ => 5
  | .fvector _ _ _ => 6
  | .fvector2d _ _ => 7
  | .frotator _ _ _ => 8
  | .uobject _ => 9
  | .aactor _ => 10
  | .uint8 _ => 11
  | .structPtr _ => 12

/-- Models `CEventArg` (GameEventManager.h lines 80-93): a named argument
slot; `m_type` is the tagged union holding both the slot's kind (its index)
and its current value. -/
structure CEventArg where
  m_name : String
  m_type : EventArgValue
deriving DecidableEq, Repr

/-- Models `UGameEvent`'s state (GameEventManager.h lines 286-294).
Subscribers are the multicast delegate's bound callbacks, identified by
opaque ids in registration order; `isDynamic` records whether the object
was constructed as the `UGameEventDynamic` subclass (which differs only in
which delegate flavor `BroadcastDelegate` fires). -/
structure UGameEvent where
  m_eventArgs : List CEventArg
  m_argsCounter : Int
  m_name : String
  subscribers : List Nat
  isDynamic : Bool
deriving DecidableEq, Repr

/-- The `UE_LOG(LogTemp, Error, ...)` reports issued by the event code,
with the format arguments each log line carries. -/
inductive ErrReport where
  | mismatch (eventName : String) (argName : String)
  | argCount (eventName : String) (counter : Int) (num : Nat)
  | varNotFound (varName : String) (eventName : String)
  | wrongType (varName : String) (eventName : String)
deriving DecidableEq, Repr

/-- State threaded through a broadcast: the event, the log of subscriber
invocations (subscriber id paired with the event state passed to it), the
error reports, and whether an out-of-bounds `TArray` access was reached
(`m_eventArgs[m_argsCounter]` with the counter outside `[0, Num())`). -/
structure EvalState where
  ev : UGameEvent
  calls : List (Nat × UGameEvent)
  errs : List ErrReport
  oob : Bool
deriving DecidableEq, Repr

/-- Default slot used with `List.getD` (only read under in-bounds guards). -/
def dA : CEventArg := ⟨"", .int 0⟩

/-- Default value used with `List.getD` (only read under in-bounds guards). -/
def dV : EventArgValue := .int 0

/-- Writing through `CEventArg& eventArg = m_eventArgs[i]; eventArg.m_type.Set<T>(arg)`:
replace the value stored at position `i`, keeping the slot's name. -/
def setSlotValue : List CEventArg → Nat → EventArgValue → List CEventArg
  | [], _, _ => []
  | a :: rest, 0, v => ⟨a.m_name, v⟩ :: rest
  | a :: rest, n + 1, v => a :: setSlotValue rest n v

/-- Models `UGameEvent::BroadcastDelegate` / `UGameEventDynamic::BroadcastDelegate`
(GameEventManager.cpp lines 141-149): the multicast delegate invokes every
bound subscriber once, in registration order, with the current event. -/
def BroadcastDelegate (st : EvalState) : EvalState :=
  { st with calls := st.calls ++ st.ev.subscribers.map (fun s => (s, st.ev)) }

/-- Models `UGameEvent::CheckArgsCounter` (GameEventManager.cpp lines 132-139):
increment the counter; if it reached `m_eventArgs.Num()`, fire the delegate. -/
def CheckArgsCounter (st : EvalState) : EvalState :=
  let ev1 := { st.ev with m_argsCounter := st.ev.m_argsCounter + 1 }
  if (ev1.m_eventArgs.length : Int) ≤ ev1.m_argsCounter then
    BroadcastDelegate { st with ev := ev1 }
  else
    { st with ev := ev1 }

/-- Models the single-argument `UGameEvent::SetValues<T>(T arg)`
(GameEventManager.h lines 170-194): if the counter is the abort sentinel -1,
do nothing; otherwise access `m_eventArgs[m_argsCounter]` (out of bounds when
the counter is outside the array, recorded in `oob`); if the slot's variant
index equals the incoming value's index, store the value and run
`CheckArgsCounter`, else log a mismatch naming the event and the slot and
set the counter to -1. -/
def SetValues1 (st : EvalState) (arg : EventArgValue) : EvalState :=
  if st.ev.m_argsCounter = -1 then
    st
  else if 0 ≤ st.ev.m_argsCounter ∧ st.ev.m_argsCounter < (st.ev.m_eventArgs.length : Int) then
    let i := st.ev.m_argsCounter.toNat
    let eventArg := st.ev.m_eventArgs.getD i dA
    if eventArg.m_type.index = arg.index then
      CheckArgsCounter { st with ev := { st.ev with m_eventArgs := setSlotValue st.ev.m_eventArgs i arg } }
    else
      { st with
        ev := { st.ev with m_argsCounter := -1 },
        errs := st.errs ++ [.mismatch st.ev.m_name eventArg.m_name] }
  else
    { st with oob := true }

/-- Models the variadic `UGameEvent::SetValues<T, Args...>` pack expansion
(GameEventManager.h lines 159-167): apply `SetValues1` to each supplied
value in order. Processing an out-of-bounds access has no defined
continuation in the source (the `TArray` range check fails), so the fold
stops once `oob` is set. -/
def SetValuesList : EvalState → List EventArgValue → EvalState
  | st, [] => st
  | st, v :: vs => if st.oob then st else SetValuesList (SetValues1 st v) vs

/-- Initial evaluation state for one broadcast call. -/
def initState (ev : UGameEvent) : EvalState := ⟨ev, [], [], false⟩

/-- Models the variadic `UGameEvent::Broadcast(T t, Args... args)`
(GameEventManager.h lines 145-157): run `SetValues` over the (nonempty)
supplied pack, then if the counter is -1 or below `m_eventArgs.Num()` log
the argument-count failure, and finally reset the counter to 0. -/
def Broadcast (ev : UGameEvent) (t : EventArgValue) (args : List EventArgValue) : EvalState :=
  let st := SetValuesList (initState ev) (t :: args)
  if st.oob then st
  else
    let st1 :=
      if st.ev.m_argsCounter = -1 ∨ st.ev.m_argsCounter < (st.ev.m_eventArgs.length : Int) then
        { st with errs := st.errs ++ [.argCount st.ev.m_name st.ev.m_argsCounter st.ev.m_eventArgs.length] }
      else st
    { st1 with ev := { st1.ev with m_argsCounter := 0 } }

/-- Models the zero-argument `UGameEvent::Broadcast()`
(GameEventManager.h lines 138-141): it calls `BroadcastDelegate()` directly,
with no argument checking of any kind. -/
def Broadcast0 (ev : UGameEvent) : EvalState :=
  BroadcastDelegate (initState ev)

/-- Models `UGameEvent::GetValue<T>(const FName& id)`
(GameEventManager.h lines 196-221). The request type `T` is characterized by
a default value `tdef` of it (the code builds `tempType.Set<T>(T())` and
compares variant indices, and returns `T()` on every failure path). Returns
the value produced together with the error report, if any. -/
def GetValue (ev : UGameEvent) (tdef : EventArgValue) (id : String) :
    EventArgValue × Option ErrReport :=
  match ev.m_eventArgs.find? (fun a => a.m_name == id) with
  | none => (tdef, some (.varNotFound id ev.m_name))
  | some found =>
    if found.m_type.index = tdef.index then (found.m_type, none)
    else (tdef, some (.wrongType id ev.m_name))

/-- Models `EEventArgTypes` (GameEventManager.h lines 45-60): the enum used
in data-table rows to declare an argument's kind. -/
inductive EEventArgTypes where
  | Int
  | Float
  | Bool
  | FName
  | FString
  | FVector
  | FVector2D
  | FRotator
  | UObjectPtr
  | AActorPtr
  | UEnum
  | CustomStruct
deriving DecidableEq, Repr

/-- Models the `if/else if` chain of `UGameEventManager::Setup`
(GameEventManager.cpp lines 63-86): the default-initialized variant chosen
for each declared argument kind. -/
def defaultArgType : EEventArgTypes → EventArgValue
  | .Int => .int 0
  | .Float => .float 0
  | .Bool => .bool false
  | .FName => .fname ""
  | .FString => .fstring ""
  | .FVector => .fvector 0 0 0
  | .FVector2D => .fvector2d 0 0
  | .FRotator => .frotator 0 0 0
  | .UObjectPtr => .uobject none
  | .AActorPtr => .aactor none
  | .UEnum => .uint8 0
  | .CustomStruct => .structPtr none

/-- Models `FEventDefinition` (GameEventManager.h lines 98-109): one
data-table row; `m_args` is the ordered `(argument name, kind)` map. -/
structure FEventDefinition where
  m_isDynamic : Bool
  m_args : List (String × EEventArgTypes)
deriving DecidableEq, Repr

/-- The registry state: `TMap<FName, UGameEvent*> m_events`, modelled as an
association list in insertion order. -/
abbrev Registry : Type := List (String × UGameEvent)

/-- Models `TMap::Add(key, value)`: replace the value if the key is present
(keeping its position), otherwise append the new pair. -/
def tmapAdd : Registry → String → UGameEvent → Registry
  | [], k, v => [(k, v)]
  | (k', v') :: rest, k, v =>
    if k' == k then (k, v) :: rest else (k', v') :: tmapAdd rest k v

/-- Models `TMap::Find`: the value stored under a key, if any. -/
def tmapFind (m : Registry) (id : String) : Option UGameEvent :=
  (List.find? (fun p => p.1 == id) m).map Prod.snd

/-- Models `TMap::Contains`. -/
def tmapContains (m : Registry) (id : String) : Bool :=
  List.any m (fun p => p.1 == id)

/-- The event built for one data-table row inside `UGameEventManager::Setup`
(GameEventManager.cpp lines 47-89): a fresh `UGameEvent` (dynamic subclass
when the row says so), named after the row, with one slot per declared
argument, in row order, each default-initialized per its kind. -/
def buildEvent (name : String) (row : FEventDefinition) : UGameEvent :=
  { m_eventArgs := row.m_args.map (fun p => ⟨p.1, defaultArgType p.2⟩),
    m_argsCounter := 0,
    m_name := name,
    subscribers := [],
    isDynamic := row.m_isDynamic }

/-- Models the row-processing loop of `UGameEventManager::Setup`
(GameEventManager.cpp lines 36-91): for each data-table row, in order,
build its event and `TMap::Add` it under the row's name. -/
def buildEvents (rows : List (String × FEventDefinition)) : Registry :=
  rows.foldl (fun m p => tmapAdd m p.1 (buildEvent p.1 p.2)) []

/-- Opaque subscriber id for the lambda that
`Get("OnWeaponFired").GetDelegate().AddLambda(...)` registers
(GameEventManager.cpp lines 96-100); its body only calls `GetValue` (a
read) and logs, so invoking it does not change event state. -/
def demoLambda : Nat := 0

/-- Models the unconditional statements after the row loop of
`UGameEventManager::Setup` (GameEventManager.cpp lines 93-105), run on the
just-built map: an `AddLambda` subscription on `OnWeaponFired`, then
`Get("OnPlayerLanded").Broadcast(251.0f)` and
`Get("OnWeaponFired").Broadcast(static_cast<UObject*>(this))`. Each
`Get` is the asserting lookup (`check(ev != nullptr)`), so an absent row
crashes `Setup` (`none`), as does an out-of-bounds slot access inside a
broadcast; the events live behind pointers in the map, so mutations are
written back under the same key. `self` is the manager's own address, the
non-null `UObject*` value broadcast into `OnWeaponFired`. The `UE_LOG`
warning on line 93 and the log inside the lambda carry no event state. -/
def setupTail (self : Nat) (m : Registry) : Option Registry :=
  match tmapFind m "OnWeaponFired" with
  | none => none
  | some evWF =>
    let m1 := tmapAdd m "OnWeaponFired"
      { evWF with subscribers := evWF.subscribers ++ [demoLambda] }
    match tmapFind m1 "OnPlayerLanded" with
    | none => none
    | some evPL =>
      let outPL := Broadcast evPL (.float 251) []
      if outPL.oob then none
      else
        let m2 := tmapAdd m1 "OnPlayerLanded" outPL.ev
        match tmapFind m2 "OnWeaponFired" with
        | none => none
        | some evWF2 =>
          let outWF := Broadcast evWF2 (.uobject (some self)) []
          if outWF.oob then none
          else some (tmapAdd m2 "OnWeaponFired" outWF.ev)

/-- Models the whole of `UGameEventManager::Setup` (GameEventManager.cpp
lines 34-106): the row-processing build loop followed by the unconditional
demo tail; `none` means `Setup` crashed (a failed `check` on a missing
`OnWeaponFired`/`OnPlayerLanded` row, or an out-of-bounds access in one of
the demo broadcasts) and never returned. -/
def Setup (self : Nat) (rows : List (String × FEventDefinition)) : Option Registry :=
  setupTail self (buildEvents rows)

/-- Models `UGameEventManager::Clear` (GameEventManager.cpp lines 108-111):
`m_events.Empty()`. -/
def Clear (_r : Registry) : Registry := []

/-- Models `UGameEventManager::Get` (GameEventManager.cpp lines 125-130):
`m_events.Find(id)` followed by `check(ev != nullptr)`; `none` models the
failed assertion on an absent name. -/
def Get (m : Registry) (id : String) : Option UGameEvent :=
  tmapFind m id

/-- Models `UGameEventManager::GetDynamic` (GameEventManager.cpp lines
113-123): if the map does not contain the name, set `success = false` and
return `nullptr`; otherwise set `success = true` and return the event. -/
def GetDynamic (m : Registry) (id : String) : Option UGameEvent × Bool :=
  if tmapContains m id then (tmapFind m id, true) else (none, false)

/-- One client operation on an event: a variadic broadcast (nonempty value
pack), a zero-argument broadcast, or a `GetValue` read. -/
inductive EvOp where
  | bcast (t : EventArgValue) (args : List EventArgValue)
  | bcast0
  | getVal (tdef : EventArgValue) (id : String)
deriving DecidableEq, Repr

/-- The event state after one operation; `GetValue` takes the event by
value and only reads, so it leaves the state unchanged. -/
def applyOp (ev : UGameEvent) : EvOp → UGameEvent
  | .bcast t args => (Broadcast ev t args).ev
  | .bcast0 => (Broadcast0 ev).ev
  | .getVal _ _ => ev

/-- The event state after a sequence of operations. -/
def runOps (ev : UGameEvent) : List EvOp → UGameEvent
  | [] => ev
  | op :: ops => runOps (applyOp ev op) ops

/-- Filling slots from position `k` on with a list of values, keeping each
slot's name: the cumulative effect of consecutive matching `SetValues1`
stores. -/
def fillFrom : List CEventArg → Nat → List EventArgValue → List CEventArg
  | slots, _, [] => slots
  | slots, k, v :: vs => fillFrom (setSlotValue slots k v) (k + 1) vs

/-! ### Helper lemmas about `setSlotValue` and `fillFrom` -/

theorem setSlotValue_length (l : List CEventArg) (k : Nat) (v : EventArgValue) :
    (setSlotValue l k v).length = l.length := by
  induction l generalizing k with
  | nil => rfl
  | cons a rest ih =>
    cases k with
    | zero => rfl
    | succ k => simp [setSlotValue, ih]

theorem setSlotValue_getD_self (l : List CEventArg) (k : Nat) (v : EventArgValue)
    (h : k < l.length) :
    (setSlotValue l k v).getD k dA = ⟨(l.getD k dA).m_name, v⟩ := by
  induction l generalizing k with
  | nil => simp at h
  | cons a rest ih =>
    cases k with
    | zero => rfl
    | succ k =>
      simp only [setSlotValue, List.getD_cons_succ]
      exact ih k (by simpa using h)

theorem setSlotValue_getD_ne (l : List CEventArg) (k j : Nat) (v : EventArgValue)
    (h : j ≠ k) : (setSlotValue l k v).getD j dA = l.getD j dA := by
  induction l generalizing k j with
  | nil => rfl
  | cons a rest ih =>
    cases k with
    | zero =>
      cases j with
      | zero => exact absurd rfl h
      | succ j => rfl
    | succ k =>
      cases j with
      | zero => rfl
      | succ j =>
        simp only [setSlotValue, List.getD_cons_succ]
        exact ih k j (fun hjk => h (by omega))

theorem setSlotValue_map_name (l : List CEventArg) (k : Nat) (v : EventArgValue) :
    (setSlotValue l k v).map (fun a => a.m_name) = l.map (fun a => a.m_name) := by
  induction l generalizing k with
  | nil => rfl
  | cons a rest ih =>
    cases k with
    | zero => rfl
    | succ k => simp [setSlotValue, ih]

theorem setSlotValue_map_kind (l : List CEventArg) (k : Nat) (v : EventArgValue)
    (h : (l.getD k dA).m_type.index = v.index) :
    (setSlotValue l k v).map (fun a => a.m_type.index)
      = l.map (fun a => a.m_type.index) := by
  induction l generalizing k with
  | nil => rfl
  | cons a rest ih =>
    cases k with
    | zero =>
      simp only [setSlotValue, List.map_cons]
      simp only [List.getD_cons_zero] at h
      rw [← h]
    | succ k =>
      simp only [setSlotValue, List.map_cons]
      rw [ih k (by simpa using h)]

theorem fillFrom_length (vs : List EventArgValue) (l : List CEventArg) (k : Nat) :
    (fillFrom l k vs).length = l.length := by
  induction vs generalizing l k with
  | nil => rfl
  | cons v vs ih => simp [fillFrom, ih, setSlotValue_length]

theorem fillFrom_map_name (vs : List EventArgValue) (l : List CEventArg) (k : Nat) :
    (fillFrom l k vs).map (fun a => a.m_name) = l.map (fun a => a.m_name) := by
  induction vs generalizing l k with
  | nil => rfl
  | cons v vs ih => simp [fillFrom, ih, setSlotValue_map_name]

theorem fillFrom_getD_lt (vs : List EventArgValue) (l : List CEventArg) (k j : Nat)
    (h : j < k) : (fillFrom l k vs).getD j dA = l.getD j dA := by
  induction vs generalizing l k with
  | nil => rfl
  | cons v vs ih =>
    simp only [fillFrom]
    rw [ih (setSlotValue l k v) (k + 1) (by omega),
      setSlotValue_getD_ne l k j v (by omega)]

theorem fillFrom_getD_ge (vs : List EventArgValue) (l : List CEventArg) (k j : Nat)
    (h : k + vs.length ≤ j) : (fillFrom l k vs).getD j dA = l.getD j dA := by
  induction vs generalizing l k with
  | nil => rfl
  | cons v vs ih =>
    simp only [fillFrom]
    rw [ih (setSlotValue l k v) (k + 1) (by simp at h ⊢; omega),
      setSlotValue_getD_ne l k j v (by simp at h; omega)]

theorem fillFrom_getD_mid (vs : List EventArgValue) (l : List CEventArg) (k j : Nat)
    (h1 : k ≤ j) (h2 : j < k + vs.length) (h3 : j < l.length) :
    (fillFrom l k vs).getD j dA = ⟨(l.getD j dA).m_name, vs.getD (j - k) dV⟩ := by
  induction vs generalizing l k with
  | nil => simp at h2; omega
  | cons v vs ih =>
    simp only [fillFrom]
    rcases Nat.eq_or_lt_of_le h1 with heq | hlt
    · subst heq
      rw [fillFrom_getD_lt vs (setSlotValue l k v) (k + 1) k (by omega),
        setSlotValue_getD_self l k v h3]
      simp
    · rw [ih (setSlotValue l k v) (k + 1) hlt (by simp at h2 ⊢; omega)
        (by rw [setSlotValue_length]; exact h3),
        setSlotValue_getD_ne l k j v (by omega)]
      have : j - k = (j - (k + 1)) + 1 := by omega
      rw [this]
      simp

theorem fillFrom_map_kind (vs : List EventArgValue) (l : List CEventArg) (k : Nat)
    (h : ∀ i, i < vs.length → (vs.getD i dV).index = (l.getD (k + i) dA).m_type.index) :
    (fillFrom l k vs).map (fun a => a.m_type.index)
      = l.map (fun a => a.m_type.index) := by
  induction vs generalizing l k with
  | nil => rfl
  | cons v vs ih =>
    simp only [fillFrom]
    rw [ih (setSlotValue l k v) (k + 1), setSlotValue_map_kind]
    · exact (h 0 (by simp)).symm
    · intro i hi
      rw [setSlotValue_getD_ne l k (k + 1 + i) v (by omega)]
      have := h (i + 1) (by simpa using hi)
      simpa [Nat.add_comm, Nat.add_assoc, Nat.add_left_comm] using this

/-! ### Helper lemmas about `SetValues1` / `SetValuesList` -/

theorem SetValues1_of_neg1 (st : EvalState) (v : EventArgValue)
    (h : st.ev.m_argsCounter = -1) : SetValues1 st v = st := by
  unfold SetValues1
  rw [if_pos h]

theorem SetValuesList_of_neg1 (vs : List EventArgValue) (st : EvalState)
    (h : st.ev.m_argsCounter = -1) : SetValuesList st vs = st := by
  induction vs with
  | nil => rfl
  | cons v vs ih =>
    unfold SetValuesList
    rw [SetValues1_of_neg1 st v h, ih]
    split <;> rfl

theorem SetValuesList_of_oob (vs : List EventArgValue) (st : EvalState)
    (h : st.oob = true) : SetValuesList st vs = st := by
  cases vs with
  | nil => rfl
  | cons v vs =>
    unfold SetValuesList
    rw [if_pos h]

theorem SetValuesList_cons (st : EvalState) (v : EventArgValue) (vs : List EventArgValue) :
    SetValuesList st (v :: vs)
      = if st.oob = true then st else SetValuesList (SetValues1 st v) vs := rfl

theorem SetValuesList_append (l1 l2 : List EventArgValue) (st : EvalState) :
    SetValuesList st (l1 ++ l2) = SetValuesList (SetValuesList st l1) l2 := by
  induction l1 generalizing st with
  | nil => rfl
  | cons v l1 ih =>
    rw [List.cons_append, SetValuesList_cons, SetValuesList_cons]
    by_cases h : st.oob = true
    · rw [if_pos h, if_pos h, SetValuesList_of_oob l2 st h]
    · rw [if_neg h, if_neg h, ih]

/-- One in-bounds, kind-matching `SetValues1` step: the value is stored and
the counter incremented; the delegate fires exactly when the counter reached
the slot count. -/
theorem SetValues1_match_step (st : EvalState) (v : EventArgValue) (k : Nat)
    (hc : st.ev.m_argsCounter = (k : Int))
    (hk : k < st.ev.m_eventArgs.length)
    (hm : v.index = (st.ev.m_eventArgs.getD k dA).m_type.index) :
    SetValues1 st v =
      (if st.ev.m_eventArgs.length ≤ k + 1 then
        { st with
          ev := { st.ev with
            m_eventArgs := setSlotValue st.ev.m_eventArgs k v,
            m_argsCounter := ((k + 1 : Nat) : Int) },
          calls := st.calls ++ st.ev.subscribers.map (fun s =>
            (s, { st.ev with
              m_eventArgs := setSlotValue st.ev.m_eventArgs k v,
              m_argsCounter := ((k + 1 : Nat) : Int) })) }
      else
        { st with
          ev := { st.ev with
            m_eventArgs := setSlotValue st.ev.m_eventArgs k v,
            m_argsCounter := ((k + 1 : Nat) : Int) } }) := by
  unfold SetValues1
  rw [if_neg (by omega), if_pos (by constructor <;> omega)]
  simp only [hc, Int.toNat_natCast]
  rw [if_pos hm.symm]
  unfold CheckArgsCounter BroadcastDelegate
  simp only [setSlotValue_length]
  by_cases hle : st.ev.m_eventArgs.length ≤ k + 1
  · rw [if_pos (by omega), if_pos hle]
    norm_num
  · rw [if_neg (by omega), if_neg hle]
    norm_num

/-- Consuming a kind-matching value list that does not complete the schema:
all values are stored in order starting at the counter, the counter advances
by the number of values, and no delegate fires. -/
theorem SetValuesList_fill_partial (vs : List EventArgValue) (st : EvalState) (k : Nat)
    (hoob : st.oob = false)
    (hc : st.ev.m_argsCounter = (k : Int))
    (hlt : k + vs.length < st.ev.m_eventArgs.length)
    (hm : ∀ i, i < vs.length →
      (vs.getD i dV).index = (st.ev.m_eventArgs.getD (k + i) dA).m_type.index) :
    SetValuesList st vs =
      { st with ev := { st.ev with
          m_eventArgs := fillFrom st.ev.m_eventArgs k vs,
          m_argsCounter := ((k + vs.length : Nat) : Int) } } := by
  induction vs generalizing st k with
  | nil =>
    obtain ⟨⟨slots, cnt, nm, subs, dyn⟩, calls, errs, oobv⟩ := st
    simp only [] at hc
    subst hc
    simp only [SetValuesList, fillFrom, List.length_nil, Nat.add_zero]
  | cons v vs ih =>
    obtain ⟨⟨slots, cnt, nm, subs, dyn⟩, calls, errs, oobv⟩ := st
    simp only [] at hc hlt hm hoob
    subst hc
    subst hoob
    rw [SetValuesList_cons]
    simp only []
    rw [if_neg (by simp)]
    rw [SetValues1_match_step _ v k rfl
      (by show k < slots.length; simp only [List.length_cons] at hlt; omega)
      (by simpa using hm 0 (by simp))]
    simp only []
    rw [if_neg (by show ¬(slots.length ≤ k + 1); simp only [List.length_cons] at hlt; omega)]
    rw [ih _ (k + 1) rfl rfl
      (by
        show (k + 1) + vs.length < (setSlotValue slots k v).length
        rw [setSlotValue_length]
        simp only [List.length_cons] at hlt
        omega)
      (by
        intro i hi
        show (vs.getD i dV).index
          = ((setSlotValue slots k v).getD (k + 1 + i) dA).m_type.index
        rw [setSlotValue_getD_ne _ k (k + 1 + i) v (by omega),
          show k + 1 + i = k + (i + 1) from by omega]
        simpa using hm (i + 1) (by simpa using hi))]
    simp only [fillFrom, List.length_cons]
    rw [show k + 1 + vs.length = k + (vs.length + 1) from by omega]

/-- Consuming a nonempty kind-matching value list that exactly completes the
schema: all values are stored, the counter ends at the slot count, and the
delegate fires exactly once, with the fully filled event. -/
theorem SetValuesList_fill_complete (vs : List EventArgValue) (st : EvalState) (k : Nat)
    (hne : vs ≠ [])
    (hoob : st.oob = false)
    (hc : st.ev.m_argsCounter = (k : Int))
    (hlen : k + vs.length = st.ev.m_eventArgs.length)
    (hm : ∀ i, i < vs.length →
      (vs.getD i dV).index = (st.ev.m_eventArgs.getD (k + i) dA).m_type.index) :
    SetValuesList st vs =
      { st with
        ev := { st.ev with
          m_eventArgs := fillFrom st.ev.m_eventArgs k vs,
          m_argsCounter := ((st.ev.m_eventArgs.length : Nat) : Int) },
        calls := st.calls ++ st.ev.subscribers.map (fun s =>
          (s, { st.ev with
            m_eventArgs := fillFrom st.ev.m_eventArgs k vs,
            m_argsCounter := ((st.ev.m_eventArgs.length : Nat) : Int) })) } := by
  induction vs generalizing st k with
  | nil => exact absurd rfl hne
  | cons v vs ih =>
    obtain ⟨⟨slots, cnt, nm, subs, dyn⟩, calls, errs, oobv⟩ := st
    simp only [] at hc hlen hm hoob
    subst hc
    subst hoob
    rw [SetValuesList_cons]
    simp only []
    rw [if_neg (by simp)]
    rw [SetValues1_match_step _ v k rfl
      (by show k < slots.length; simp only [List.length_cons] at hlen; omega)
      (by simpa using hm 0 (by simp))]
    simp only []
    cases vs with
    | nil =>
      have hk1 : k + 1 = slots.length := by
        simpa using hlen
      rw [if_pos (by show slots.length ≤ k + 1; omega)]
      simp only [SetValuesList, fillFrom]
      rw [hk1]
    | cons w ws =>
      rw [if_neg (by
        show ¬(slots.length ≤ k + 1)
        simp only [List.length_cons] at hlen
        omega)]
      rw [ih _ (k + 1) (by simp) rfl rfl
        (by
          show (k + 1) + (w :: ws).length = (setSlotValue slots k v).length
          rw [setSlotValue_length]
          simp only [List.length_cons] at hlen ⊢
          omega)
        (by
          intro i hi
          show ((w :: ws).getD i dV).index
            = ((setSlotValue slots k v).getD (k + 1 + i) dA).m_type.index
          rw [setSlotValue_getD_ne _ k (k + 1 + i) v (by omega),
            show k + 1 + i = k + (i + 1) from by omega]
          simpa using hm (i + 1) (by simpa using hi))]
      simp only [fillFrom, setSlotValue_length]

/-- One in-bounds, kind-mismatching `SetValues1` step: a mismatch report
naming the event and the slot is appended and the counter is set to -1. -/
theorem SetValues1_mismatch_step (st : EvalState) (v : EventArgValue) (k : Nat)
    (hc : st.ev.m_argsCounter = (k : Int))
    (hk : k < st.ev.m_eventArgs.length)
    (hm : v.index ≠ (st.ev.m_eventArgs.getD k dA).m_type.index) :
    SetValues1 st v =
      { st with
        ev := { st.ev with m_argsCounter := -1 },
        errs := st.errs ++ [.mismatch st.ev.m_name (st.ev.m_eventArgs.getD k dA).m_name] } := by
  unfold SetValues1
  rw [if_neg (by omega), if_pos (by constructor <;> omega)]
  simp only [hc, Int.toNat_natCast]
  rw [if_neg (fun h => hm h.symm)]

/-- An out-of-range `SetValues1` step: the counter is neither -1 nor inside
`[0, Num())`, so the access `m_eventArgs[m_argsCounter]` is out of bounds. -/
theorem SetValues1_oob_step (st : EvalState) (v : EventArgValue)
    (hc : st.ev.m_argsCounter = (st.ev.m_eventArgs.length : Int)) :
    SetValues1 st v = { st with oob := true } := by
  unfold SetValues1
  rw [if_neg (by omega), if_neg (by rw [hc]; omega)]

/-- Consuming any further value once the counter sits at the slot count
reaches the out-of-bounds access. -/
theorem SetValuesList_overrun (vs : List EventArgValue) (st : EvalState)
    (hne : vs ≠ [])
    (hoob : st.oob = false)
    (hc : st.ev.m_argsCounter = (st.ev.m_eventArgs.length : Int)) :
    (SetValuesList st vs).oob = true := by
  cases vs with
  | nil => exact absurd rfl hne
  | cons v vs =>
    rw [SetValuesList_cons, if_neg (by simp [hoob])]
    rw [SetValues1_oob_step st v hc, SetValuesList_of_oob _ _ rfl]

/-- As long as the counter stays within bounds for the number of values
still to be consumed, no out-of-bounds access happens. -/
theorem SetValuesList_oob_safe (vs : List EventArgValue) (st : EvalState)
    (hoob : st.oob = false)
    (hinv : st.ev.m_argsCounter = -1 ∨
      (0 ≤ st.ev.m_argsCounter ∧
        st.ev.m_argsCounter + vs.length ≤ (st.ev.m_eventArgs.length : Int))) :
    (SetValuesList st vs).oob = false := by
  induction vs generalizing st with
  | nil => exact hoob
  | cons v vs ih =>
    rw [SetValuesList_cons, if_neg (by simp [hoob])]
    rcases hinv with h1 | ⟨h2, h3⟩
    · rw [SetValues1_of_neg1 st v h1]
      exact ih st hoob (Or.inl h1)
    · obtain ⟨k, hk⟩ : ∃ k : Nat, st.ev.m_argsCounter = (k : Int) :=
        ⟨st.ev.m_argsCounter.toNat, (Int.toNat_of_nonneg h2).symm⟩
      have hkn : k < st.ev.m_eventArgs.length := by
        rw [hk] at h3
        simp only [List.length_cons] at h3
        omega
      by_cases hmatch : v.index = (st.ev.m_eventArgs.getD k dA).m_type.index
      · rw [SetValues1_match_step st v k hk hkn hmatch]
        split
        · refine ih _ hoob (Or.inr ⟨by show (0:Int) ≤ ((k+1:Nat):Int); omega, ?_⟩)
          show ((k+1:Nat):Int) + vs.length ≤ ((setSlotValue st.ev.m_eventArgs k v).length : Int)
          rw [setSlotValue_length]
          rw [hk] at h3
          simp only [List.length_cons] at h3
          omega
        · refine ih _ hoob (Or.inr ⟨by show (0:Int) ≤ ((k+1:Nat):Int); omega, ?_⟩)
          show ((k+1:Nat):Int) + vs.length ≤ ((setSlotValue st.ev.m_eventArgs k v).length : Int)
          rw [setSlotValue_length]
          rw [hk] at h3
          simp only [List.length_cons] at h3
          omega
      · rw [SetValues1_mismatch_step st v k hk hkn hmatch]
        exact ih _ hoob (Or.inl rfl)

/-- Unfolds `Broadcast` once the `SetValues` pass has been computed. -/
theorem Broadcast_of_svl (ev : UGameEvent) (t : EventArgValue) (args : List EventArgValue)
    (st' : EvalState) (h : SetValuesList (initState ev) (t :: args) = st') :
    Broadcast ev t args
      = if st'.oob then st'
        else
          (if st'.ev.m_argsCounter = -1 ∨ st'.ev.m_argsCounter < (st'.ev.m_eventArgs.length : Int)
            then { st' with
              ev := { st'.ev with m_argsCounter := 0 },
              errs := st'.errs ++ [.argCount st'.ev.m_name st'.ev.m_argsCounter st'.ev.m_eventArgs.length] }
            else { st' with ev := { st'.ev with m_argsCounter := 0 } }) := by
  unfold Broadcast
  rw [h]
  simp only []
  split
  · rfl
  · split
    · rfl
    · rfl

/-- The `oob` flag after `Broadcast` is the one after its `SetValues` pass. -/
theorem Broadcast_oob_eq (ev : UGameEvent) (t : EventArgValue) (args : List EventArgValue) :
    (Broadcast ev t args).oob = (SetValuesList (initState ev) (t :: args)).oob := by
  rw [Broadcast_of_svl ev t args _ rfl]
  split
  · rfl
  · split
    · rfl
    · rfl

/-! ### Kind preservation -/

theorem CheckArgsCounter_ev_args (st : EvalState) :
    (CheckArgsCounter st).ev.m_eventArgs = st.ev.m_eventArgs := by
  simp only [CheckArgsCounter, BroadcastDelegate]
  split
  · rfl
  · rfl

theorem SetValues1_map_kind (st : EvalState) (v : EventArgValue) :
    (SetValues1 st v).ev.m_eventArgs.map (fun a => a.m_type.index)
      = st.ev.m_eventArgs.map (fun a => a.m_type.index) := by
  simp only [SetValues1]
  split
  · rfl
  · split
    · split
      · next hmatch =>
        rw [CheckArgsCounter_ev_args]
        exact setSlotValue_map_kind _ _ _ hmatch
      · rfl
    · rfl

theorem SetValuesList_map_kind (vs : List EventArgValue) (st : EvalState) :
    (SetValuesList st vs).ev.m_eventArgs.map (fun a => a.m_type.index)
      = st.ev.m_eventArgs.map (fun a => a.m_type.index) := by
  induction vs generalizing st with
  | nil => rfl
  | cons v vs ih =>
    rw [SetValuesList_cons]
    split
    · rfl
    · rw [ih, SetValues1_map_kind]

theorem Broadcast_map_kind (ev : UGameEvent) (t : EventArgValue) (args : List EventArgValue) :
    (Broadcast ev t args).ev.m_eventArgs.map (fun a => a.m_type.index)
      = ev.m_eventArgs.map (fun a => a.m_type.index) := by
  rw [Broadcast_of_svl ev t args _ rfl]
  have h := SetValuesList_map_kind (t :: args) (initState ev)
  split
  · exact h
  · split
    · exact h
    · exact h

/-! ### Registry helper lemmas -/

theorem tmapAdd_tmapAdd_same (m : Registry) (k : String) (v1 v2 : UGameEvent) :
    tmapAdd (tmapAdd m k v1) k v2 = tmapAdd m k v2 := by
  induction m with
  | nil => simp [tmapAdd]
  | cons p rest ih =>
    by_cases h : p.1 == k
    · simp [tmapAdd, h]
    · simp [tmapAdd, h, ih]

theorem tmapAdd_of_not_contains (m : Registry) (k : String) (v : UGameEvent)
    (h : tmapContains m k = false) : tmapAdd m k v = m ++ [(k, v)] := by
  induction m with
  | nil => rfl
  | cons p rest ih =>
    simp only [tmapContains, List.any_cons, Bool.or_eq_false_iff] at h
    simp only [tmapAdd, h.1, Bool.false_eq_true, if_false]
    rw [ih h.2]
    rfl

theorem tmapContains_append (m m' : Registry) (k : String) :
    tmapContains (m ++ m') k = (tmapContains m k || tmapContains m' k) := by
  simp [tmapContains, List.any_append]

/-- With pairwise distinct row names, `Setup` builds exactly one entry per
row, in row order. -/
theorem foldl_tmapAdd_nodup (rows : List (String × FEventDefinition)) (m : Registry)
    (hfree : ∀ p ∈ rows, tmapContains m p.1 = false)
    (hnd : (rows.map Prod.fst).Nodup) :
    rows.foldl (fun acc p => tmapAdd acc p.1 (buildEvent p.1 p.2)) m
      = m ++ rows.map (fun p => (p.1, buildEvent p.1 p.2)) := by
  induction rows generalizing m with
  | nil => simp
  | cons p rows ih =>
    simp only [List.foldl_cons]
    rw [tmapAdd_of_not_contains m p.1 _ (hfree p (List.mem_cons_self p rows))]
    simp only [List.map_cons, List.nodup_cons] at hnd
    rw [ih (m ++ [(p.1, buildEvent p.1 p.2)])]
    · simp
    · intro q hq
      rw [tmapContains_append]
      rw [hfree q (List.mem_cons_of_mem p hq)]
      simp only [Bool.false_or]
      simp only [tmapContains, List.any_cons, List.any_nil, Bool.or_false]
      simp only [beq_eq_false_iff_ne, ne_eq]
      intro he
      exact hnd.1 (he ▸ List.mem_map_of_mem Prod.fst hq)
    · exact hnd.2

theorem buildEvents_nodup_eq (rows : List (String × FEventDefinition))
    (hnd : (rows.map Prod.fst).Nodup) :
    buildEvents rows = rows.map (fun p => (p.1, buildEvent p.1 p.2)) := by
  unfold buildEvents
  rw [foldl_tmapAdd_nodup rows [] (fun p _ => rfl) hnd]
  rfl

theorem tmapFind_tmapAdd_self (m : Registry) (k : String) (v : UGameEvent) :
    tmapFind (tmapAdd m k v) k = some v := by
  induction m with
  | nil => simp [tmapAdd, tmapFind]
  | cons p rest ih =>
    by_cases h : p.1 == k
    · simp [tmapAdd, tmapFind, h]
    · simp only [tmapAdd, h, Bool.false_eq_true, if_false]
      simpa [tmapFind, h] using ih

theorem tmapFind_tmapAdd_ne (m : Registry) (k k' : String) (v : UGameEvent)
    (h : k' ≠ k) : tmapFind (tmapAdd m k v) k' = tmapFind m k' := by
  have hkk : (k == k') = false := by
    simp only [beq_eq_false_iff_ne, ne_eq]
    intro he
    exact h he.symm
  induction m with
  | nil => simp [tmapAdd, tmapFind, List.find?, hkk]
  | cons p rest ih =>
    obtain ⟨pk, pv⟩ := p
    by_cases hk : pk == k
    · have hpk : pk = k := by simpa using hk
      simp [tmapAdd, tmapFind, List.find?, hk, hkk, hpk]
    · simp only [tmapAdd, hk, Bool.false_eq_true, if_false]
      by_cases hp : pk == k'
      · simp [tmapFind, List.find?, hp]
      · simpa [tmapFind, List.find?, hp] using ih

theorem find?_map_build (rows : List (String × FEventDefinition))
    (n : String) (row : FEventDefinition)
    (h : (n, row) ∈ rows) (hnd : (rows.map Prod.fst).Nodup) :
    List.find? (fun q => q.1 == n) (rows.map (fun p => (p.1, buildEvent p.1 p.2)))
      = some (n, buildEvent n row) := by
  induction rows with
  | nil => cases h
  | cons p rows ih =>
    simp only [List.map_cons, List.nodup_cons] at hnd
    by_cases hk : p.1 = n
    · have hp : p = (n, row) := by
        rcases List.mem_cons.mp h with he | ht
        · exact he.symm
        · exact absurd (hk ▸ List.mem_map_of_mem Prod.fst ht) hnd.1
      rw [List.map_cons]
      rw [hp]
      exact List.find?_cons_of_pos _ (by simp)
    · have ht : (n, row) ∈ rows := by
        rcases List.mem_cons.mp h with he | ht
        · exact absurd (congrArg Prod.fst he.symm) hk
        · exact ht
      rw [List.map_cons]
      have hfind :
          List.find? (fun q => q.1 == n)
              ((p.1, buildEvent p.1 p.2) :: rows.map (fun p => (p.1, buildEvent p.1 p.2)))
            = List.find? (fun q => q.1 == n) (rows.map (fun p => (p.1, buildEvent p.1 p.2))) :=
        List.find?_cons_of_neg _ (by simpa using hk)
      rw [hfind]
      exact ih ht hnd.2

/-! ### Generic list helpers -/

theorem getD_take_of_lt {α : Type} (l : List α) (d : α) (i j : Nat)
    (hj : j < i) (hi : i ≤ l.length) : (l.take i).getD j d = l.getD j d := by
  conv_rhs => rw [← List.take_append_drop i l]
  rw [List.getD_append]
  rw [List.length_take]
  omega

theorem drop_getD_cons {α : Type} (l : List α) (d : α) (i : Nat) (h : i < l.length) :
    l.drop i = l.getD i d :: l.drop (i + 1) := by
  rw [List.drop_eq_getElem_cons h, List.getD_eq_getElem l d h]

/-- When slot names are pairwise distinct, the by-name lookup used in
`GetValue` finds exactly the slot at the name's position. -/
theorem find?_name_of_nodup (l : List CEventArg) (i : Nat) (hi : i < l.length)
    (hnd : (l.map (fun a => a.m_name)).Nodup) :
    l.find? (fun a => a.m_name == (l.getD i dA).m_name) = some (l.getD i dA) := by
  induction l generalizing i with
  | nil => simp at hi
  | cons a rest ih =>
    cases i with
    | zero =>
      rw [List.getD_cons_zero]
      exact List.find?_cons_of_pos _ (by simp)
    | succ i =>
      simp only [List.getD_cons_succ]
      simp only [List.map_cons, List.nodup_cons] at hnd
      have hirest : i < rest.length := by simpa using hi
      have hne : ¬(a.m_name == (rest.getD i dA).m_name) = true := by
        simp only [beq_iff_eq]
        intro he
        apply hnd.1
        rw [he]
        refine List.mem_map_of_mem _ ?_
        rw [List.getD_eq_getElem rest dA hirest]
        exact List.getElem_mem hirest
      have hfind :
          List.find? (fun x => x.m_name == (rest.getD i dA).m_name) (a :: rest)
            = List.find? (fun x => x.m_name == (rest.getD i dA).m_name) rest :=
        List.find?_cons_of_neg rest hne
      rw [hfind]
      exact ih i hirest hnd.2

/-! ### Name and slot-signature preservation -/

theorem CheckArgsCounter_ev_name (st : EvalState) :
    (CheckArgsCounter st).ev.m_name = st.ev.m_name := by
  simp only [CheckArgsCounter, BroadcastDelegate]
  split
  · rfl
  · rfl

theorem SetValues1_ev_name (st : EvalState) (v : EventArgValue) :
    (SetValues1 st v).ev.m_name = st.ev.m_name := by
  simp only [SetValues1]
  split
  · rfl
  · split
    · split
      · rw [CheckArgsCounter_ev_name]
      · rfl
    · rfl

theorem SetValuesList_ev_name (vs : List EventArgValue) (st : EvalState) :
    (SetValuesList st vs).ev.m_name = st.ev.m_name := by
  induction vs generalizing st with
  | nil => rfl
  | cons v vs ih =>
    rw [SetValuesList_cons]
    split
    · rfl
    · rw [ih, SetValues1_ev_name]

theorem Broadcast_ev_name (ev : UGameEvent) (t : EventArgValue) (args : List EventArgValue) :
    (Broadcast ev t args).ev.m_name = ev.m_name := by
  rw [Broadcast_of_svl ev t args _ rfl]
  have h := SetValuesList_ev_name (t :: args) (initState ev)
  split
  · exact h
  · split
    · exact h
    · exact h

theorem setSlotValue_map_sig (l : List CEventArg) (k : Nat) (v : EventArgValue)
    (h : (l.getD k dA).m_type.index = v.index) :
    (setSlotValue l k v).map (fun a => (a.m_name, a.m_type.index))
      = l.map (fun a => (a.m_name, a.m_type.index)) := by
  induction l generalizing k with
  | nil => rfl
  | cons a rest ih =>
    cases k with
    | zero =>
      simp only [setSlotValue, List.map_cons]
      simp only [List.getD_cons_zero] at h
      rw [← h]
    | succ k =>
      simp only [setSlotValue, List.map_cons]
      rw [ih k (by simpa using h)]

theorem SetValues1_map_sig (st : EvalState) (v : EventArgValue) :
    (SetValues1 st v).ev.m_eventArgs.map (fun a => (a.m_name, a.m_type.index))
      = st.ev.m_eventArgs.map (fun a => (a.m_name, a.m_type.index)) := by
  simp only [SetValues1]
  split
  · rfl
  · split
    · split
      · next hmatch =>
        rw [CheckArgsCounter_ev_args]
        exact setSlotValue_map_sig _ _ _ hmatch
      · rfl
    · rfl

theorem SetValuesList_map_sig (vs : List EventArgValue) (st : EvalState) :
    (SetValuesList st vs).ev.m_eventArgs.map (fun a => (a.m_name, a.m_type.index))
      = st.ev.m_eventArgs.map (fun a => (a.m_name, a.m_type.index)) := by
  induction vs generalizing st with
  | nil => rfl
  | cons v vs ih =>
    rw [SetValuesList_cons]
    split
    · rfl
    · rw [ih, SetValues1_map_sig]

theorem Broadcast_map_sig (ev : UGameEvent) (t : EventArgValue) (args : List EventArgValue) :
    (Broadcast ev t args).ev.m_eventArgs.map (fun a => (a.m_name, a.m_type.index))
      = ev.m_eventArgs.map (fun a => (a.m_name, a.m_type.index)) := by
  rw [Broadcast_of_svl ev t args _ rfl]
  have h := SetValuesList_map_sig (t :: args) (initState ev)
  split
  · exact h
  · split
    · exact h
    · exact h

/-- A successful `setupTail` run decomposes into its three lookups and the
final write-backs. -/
theorem setupTail_eq_some (self : Nat) (m r : Registry)
    (h : setupTail self m = some r) :
    ∃ evWF evPL evWF2,
      tmapFind m "OnWeaponFired" = some evWF
      ∧ tmapFind (tmapAdd m "OnWeaponFired"
          { evWF with subscribers := evWF.subscribers ++ [demoLambda] })
          "OnPlayerLanded" = some evPL
      ∧ tmapFind (tmapAdd (tmapAdd m "OnWeaponFired"
            { evWF with subscribers := evWF.subscribers ++ [demoLambda] })
            "OnPlayerLanded" (Broadcast evPL (.float 251) []).ev)
          "OnWeaponFired" = some evWF2
      ∧ r = tmapAdd (tmapAdd (tmapAdd m "OnWeaponFired"
            { evWF with subscribers := evWF.subscribers ++ [demoLambda] })
            "OnPlayerLanded" (Broadcast evPL (.float 251) []).ev)
          "OnWeaponFired" (Broadcast evWF2 (.uobject (some self)) []).ev := by
  unfold setupTail at h
  split at h
  · exact absurd h (by simp)
  · next evWF hwf =>
    simp only [] at h
    split at h
    · exact absurd h (by simp)
    · next evPL hpl =>
      split at h
      · exact absurd h (by simp)
      · split at h
        · exact absurd h (by simp)
        · next evWF2 hwf2 =>
          split at h
          · exact absurd h (by simp)
          · refine ⟨evWF, evPL, evWF2, hwf, hpl, hwf2, ?_⟩
            exact (Option.some.injEq _ _ ▸ h).symm

/-! ### Claim theorems -/

/-- C3, counterexample: on an event with a non-empty schema (one Int slot)
and one subscriber, the zero-argument `Broadcast()` invokes the subscriber
and reports no error at all — it does not fail with an argument-count error
and it does not skip the subscribers. -/
theorem C3_cex :
    Broadcast0
        { m_eventArgs := [⟨"x", .int 0⟩], m_argsCounter := 0, m_name := "E",
          subscribers := [0], isDynamic := false }
      = { ev := { m_eventArgs := [⟨"x", .int 0⟩], m_argsCounter := 0, m_name := "E",
                  subscribers := [0], isDynamic := false },
          calls := [(0, { m_eventArgs := [⟨"x", .int 0⟩], m_argsCounter := 0, m_name := "E",
                          subscribers := [0], isDynamic := false })],
          errs := [], oob := false } := by
  rfl

/-- C3 (amended): the zero-argument `Broadcast()` performs no argument-count
check whatsoever: on every event — empty schema or not — it immediately
invokes every subscriber exactly once, in registration order, with the event
unchanged, and reports no error. -/
theorem C3_zero_arg_broadcast (ev : UGameEvent) :
    Broadcast0 ev
      = { ev := ev, calls := ev.subscribers.map (fun s => (s, ev)),
          errs := [], oob := false } := by
  rfl

/-- C5: `GetValue<T>(name)` reports a not-found error and returns the
caller-side default `T()` when no slot bears the name; reports a wrong-type
error and returns the caller-side default (never a reinterpretation of the
stored value) when the found slot's variant index differs from `T`'s; and
returns exactly the stored value otherwise. -/
theorem C5_getValue (ev : UGameEvent) (tdef : EventArgValue) (id : String) :
    ((∀ a ∈ ev.m_eventArgs, a.m_name ≠ id) →
      GetValue ev tdef id = (tdef, some (.varNotFound id ev.m_name))) ∧
    (∀ a, ev.m_eventArgs.find? (fun x => x.m_name == id) = some a →
      (a.m_type.index ≠ tdef.index →
        GetValue ev tdef id = (tdef, some (.wrongType id ev.m_name))) ∧
      (a.m_type.index = tdef.index →
        GetValue ev tdef id = (a.m_type, none))) := by
  refine ⟨?_, ?_⟩
  · intro h
    unfold GetValue
    have hf : ev.m_eventArgs.find? (fun a => a.m_name == id) = none := by
      rw [List.find?_eq_none]
      intro a ha
      simp [h a ha]
    rw [hf]
  · intro a ha
    refine ⟨?_, ?_⟩
    · intro hne
      unfold GetValue
      rw [ha]
      simp only []
      rw [if_neg hne]
    · intro heq
      unfold GetValue
      rw [ha]
      simp only []
      rw [if_pos heq]

/-- C5 witness: concrete event with one Int slot named `x` holding 7. -/
theorem C5_getValue_witness :
    GetValue { m_eventArgs := [⟨"x", .int 7⟩], m_argsCounter := 0, m_name := "E",
               subscribers := [], isDynamic := false } (.float 0) "x"
        = (.float 0, some (.wrongType "x" "E"))
    ∧ GetValue { m_eventArgs := [⟨"x", .int 7⟩], m_argsCounter := 0, m_name := "E",
                 subscribers := [], isDynamic := false } (.int 0) "x"
        = (.int 7, none)
    ∧ GetValue { m_eventArgs := [⟨"x", .int 7⟩], m_argsCounter := 0, m_name := "E",
                 subscribers := [], isDynamic := false } (.int 0) "y"
        = (.int 0, some (.varNotFound "y" "E")) := by
  refine ⟨?_, ?_, ?_⟩
  · exact ((C5_getValue _ (.float 0) "x").2 ⟨"x", .int 7⟩ (by rfl)).1 (by decide)
  · exact ((C5_getValue _ (.int 0) "x").2 ⟨"x", .int 7⟩ (by rfl)).2 (by decide)
  · exact (C5_getValue _ (.int 0) "y").1 (by decide)

/-- C6, counterexample: the full `Setup` (row loop plus the unconditional
demo tail) run on rows that contain the demo rows AND two definitions both
named `dup` completes successfully — no `DuplicateName` (or any other)
failure. `TMap::Add` silently replaces on the existing key, so the single
`dup` entry holds the SECOND definition's event. -/
theorem C6_cex :
    Setup 7 [("OnWeaponFired", ⟨false, [("GameEventManager", .UObjectPtr)]⟩),
             ("OnPlayerLanded", ⟨false, [("height", .Float)]⟩),
             ("dup", ⟨false, [("x", .Int)]⟩), ("dup", ⟨true, []⟩)]
      = some [("OnWeaponFired",
               { m_eventArgs := [⟨"GameEventManager", .uobject (some 7)⟩],
                 m_argsCounter := 0, m_name := "OnWeaponFired",
                 subscribers := [demoLambda], isDynamic := false }),
              ("OnPlayerLanded",
               { m_eventArgs := [⟨"height", .float 251⟩],
                 m_argsCounter := 0, m_name := "OnPlayerLanded",
                 subscribers := [], isDynamic := false }),
              ("dup", { m_eventArgs := [], m_argsCounter := 0, m_name := "dup",
                        subscribers := [], isDynamic := true })] := by
  rfl

/-- C6 (amended): building the registry from a sequence in which two
definitions share a name never fails because of the duplication — no
`DuplicateName` error exists. The later definition's event silently
replaces the earlier one under that name (last definition wins), and the
whole `Setup` — including whether its hard-coded demo tail completes or
crashes on the `OnWeaponFired`/`OnPlayerLanded` lookups — behaves exactly
as if the earlier duplicate definition were absent. -/
theorem C6_duplicate_last_wins (self : Nat) (pre post : List (String × FEventDefinition))
    (n : String) (r1 r2 : FEventDefinition) :
    Setup self (pre ++ (n, r1) :: (n, r2) :: post)
      = Setup self (pre ++ (n, r2) :: post) := by
  unfold Setup
  congr 1
  unfold buildEvents
  rw [List.foldl_append, List.foldl_append]
  simp only [List.foldl_cons]
  rw [tmapAdd_tmapAdd_same]

/-- C7: a name absent from the registry — in particular any name after
`Clear()` — makes `Get` fail its assertion (modelled as `none`) while
`GetDynamic` returns no event with `success = false`; a present name makes
`GetDynamic` return the event with `success = true`. -/
theorem C7_lookup (r : Registry) (id : String) :
    (Get (Clear r) id = none ∧ GetDynamic (Clear r) id = (none, false)) ∧
    (Get r id = none → GetDynamic r id = (none, false)) ∧
    (∀ ev, Get r id = some ev → GetDynamic r id = (some ev, true)) := by
  refine ⟨⟨rfl, rfl⟩, ?_, ?_⟩
  · intro h
    have hf : List.find? (fun p => p.1 == id) r = none := by
      unfold Get tmapFind at h
      exact Option.map_eq_none'.mp h
    have hc : tmapContains r id = false := by
      unfold tmapContains
      rw [List.any_eq_false]
      rw [List.find?_eq_none] at hf
      exact hf
    unfold GetDynamic
    rw [hc]
    simp
  · intro ev h
    have hc : tmapContains r id = true := by
      unfold Get tmapFind at h
      obtain ⟨p, hp, _⟩ := Option.map_eq_some'.mp h
      unfold tmapContains
      rw [List.any_eq_true]
      have hpa := List.find?_some hp
      exact ⟨p, List.mem_of_find?_eq_some hp, hpa⟩
    unfold GetDynamic
    rw [hc]
    simp only [if_true]
    rw [show tmapFind r id = some ev from h]

/-- C7 witness: concrete one-event registry. -/
theorem C7_lookup_witness :
    GetDynamic (buildEvents [("a", ⟨false, []⟩)]) "a"
      = (some { m_eventArgs := [], m_argsCounter := 0, m_name := "a",
                subscribers := [], isDynamic := false }, true)
    ∧ Get (Clear (buildEvents [("a", ⟨false, []⟩)])) "a" = none
    ∧ GetDynamic (buildEvents [("a", ⟨false, []⟩)]) "b" = (none, false) := by
  refine ⟨?_, ?_, ?_⟩
  · exact (C7_lookup (buildEvents [("a", ⟨false, []⟩)]) "a").2.2 _ (by rfl)
  · exact (C7_lookup (buildEvents [("a", ⟨false, []⟩)]) "a").1.1
  · exact (C7_lookup (buildEvents [("a", ⟨false, []⟩)]) "b").2.1 (by rfl)

/-- C10: the kind (variant index) of every slot is an invariant of every
sequence of broadcast and `GetValue` operations: a broadcast stores into a
slot only a value of the slot's current kind and `GetValue` does not write,
so after any operation sequence each slot's kind is still the one chosen
from its definition row at registry build time. -/
theorem C10_kind_invariant :
    (∀ (ev : UGameEvent) (ops : List EvOp),
      (runOps ev ops).m_eventArgs.map (fun a => a.m_type.index)
        = ev.m_eventArgs.map (fun a => a.m_type.index)) ∧
    (∀ (name : String) (row : FEventDefinition) (ops : List EvOp),
      (runOps (buildEvent name row) ops).m_eventArgs.map (fun a => a.m_type.index)
        = row.m_args.map (fun p => (defaultArgType p.2).index)) := by
  have hmain : ∀ (ops : List EvOp) (ev : UGameEvent),
      (runOps ev ops).m_eventArgs.map (fun a => a.m_type.index)
        = ev.m_eventArgs.map (fun a => a.m_type.index) := by
    intro ops
    induction ops with
    | nil => intro ev; rfl
    | cons op ops ih =>
      intro ev
      show (runOps (applyOp ev op) ops).m_eventArgs.map (fun a => a.m_type.index) = _
      rw [ih (applyOp ev op)]
      cases op with
      | bcast t args => exact Broadcast_map_kind ev t args
      | bcast0 => rfl
      | getVal tdef id => rfl
  refine ⟨fun ev ops => hmain ops ev, fun name row ops => ?_⟩
  rw [hmain ops (buildEvent name row)]
  unfold buildEvent
  rw [List.map_map]
  rfl

/-- C4: a variadic broadcast supplying fewer values than there are slots,
all of them kind-matching, invokes zero subscribers, reports (logs, does not
throw) exactly one argument-count failure, and leaves the fill counter reset
to 0. -/
theorem C4_too_few_args (ev : UGameEvent) (t : EventArgValue) (args : List EventArgValue)
    (h0 : ev.m_argsCounter = 0)
    (hlt : (t :: args).length < ev.m_eventArgs.length)
    (hm : ∀ i, i < (t :: args).length →
      ((t :: args).getD i dV).index = (ev.m_eventArgs.getD i dA).m_type.index) :
    (Broadcast ev t args).calls = [] ∧
    (Broadcast ev t args).errs
      = [.argCount ev.m_name ((t :: args).length : Int) ev.m_eventArgs.length] ∧
    (Broadcast ev t args).ev.m_argsCounter = 0 ∧
    (Broadcast ev t args).oob = false := by
  have hfill := SetValuesList_fill_partial (t :: args) (initState ev) 0 rfl
    (by show ev.m_argsCounter = ((0 : Nat) : Int); simpa using h0)
    (by simpa using hlt)
    (by intro i hi; simpa using hm i hi)
  rw [Broadcast_of_svl ev t args _ hfill]
  simp only []
  rw [if_neg (by simp [initState])]
  rw [if_pos (Or.inr (by
    show ((0 + (t :: args).length : Nat) : Int) < ((fillFrom ev.m_eventArgs 0 (t :: args)).length : Int)
    rw [fillFrom_length]
    omega))]
  refine ⟨rfl, ?_, rfl, rfl⟩
  show [] ++ [ErrReport.argCount ev.m_name ((0 + (t :: args).length : Nat) : Int)
      (fillFrom ev.m_eventArgs 0 (t :: args)).length]
    = [.argCount ev.m_name ((t :: args).length : Int) ev.m_eventArgs.length]
  rw [fillFrom_length, List.nil_append]
  norm_num

/-- C4 witness: two Float slots, one matching value supplied. -/
theorem C4_too_few_args_witness :
    (Broadcast { m_eventArgs := [⟨"x", .float 0⟩, ⟨"y", .float 0⟩], m_argsCounter := 0,
                 m_name := "E", subscribers := [5], isDynamic := false }
        (.float 3) []).calls = []
    ∧ (Broadcast { m_eventArgs := [⟨"x", .float 0⟩, ⟨"y", .float 0⟩], m_argsCounter := 0,
                   m_name := "E", subscribers := [5], isDynamic := false }
        (.float 3) []).errs = [.argCount "E" 1 2] := by
  have h := C4_too_few_args
    { m_eventArgs := [⟨"x", .float 0⟩, ⟨"y", .float 0⟩], m_argsCounter := 0,
      m_name := "E", subscribers := [5], isDynamic := false }
    (.float 3) [] rfl (by decide) (by decide)
  exact ⟨h.1, h.2.1.trans (by norm_num)⟩

/-- C2: a variadic broadcast that matches the schema up to position `i` and
mismatches at position `i` invokes zero subscribers, leaves slot `i` and all
later slots unmodified, reports the schema mismatch naming the event and the
offending slot (followed by the counter/length log from the tail of
`Broadcast`), and leaves the fill counter reset to 0. -/
theorem C2_mismatch_aborts (ev : UGameEvent) (t : EventArgValue)
    (args : List EventArgValue) (i : Nat)
    (h0 : ev.m_argsCounter = 0)
    (hi : i < (t :: args).length)
    (hin : i < ev.m_eventArgs.length)
    (hpre : ∀ j, j < i →
      ((t :: args).getD j dV).index = (ev.m_eventArgs.getD j dA).m_type.index)
    (hmis : ((t :: args).getD i dV).index ≠ (ev.m_eventArgs.getD i dA).m_type.index) :
    (Broadcast ev t args).calls = [] ∧
    (Broadcast ev t args).errs
      = [.mismatch ev.m_name (ev.m_eventArgs.getD i dA).m_name,
         .argCount ev.m_name (-1) ev.m_eventArgs.length] ∧
    (∀ j, i ≤ j →
      (Broadcast ev t args).ev.m_eventArgs.getD j dA = ev.m_eventArgs.getD j dA) ∧
    (Broadcast ev t args).ev.m_argsCounter = 0 ∧
    (Broadcast ev t args).oob = false := by
  have hlen_take : ((t :: args).take i).length = i := by
    rw [List.length_take]
    omega
  have hidec : t :: args
      = (t :: args).take i ++ ((t :: args).getD i dV :: (t :: args).drop (i + 1)) := by
    conv_lhs => rw [← List.take_append_drop i (t :: args)]
    rw [drop_getD_cons (t :: args) dV i hi]
  have hfill := SetValuesList_fill_partial ((t :: args).take i) (initState ev) 0 rfl
    (by show ev.m_argsCounter = ((0 : Nat) : Int); simpa using h0)
    (by rw [hlen_take]; simpa using hin)
    (by
      intro j hj
      have hji : j < i := by rw [hlen_take] at hj; exact hj
      rw [getD_take_of_lt (t :: args) dV i j hji (by omega)]
      simpa using hpre j hji)
  simp only [hlen_take, Nat.zero_add] at hfill
  have hgetfill : ∀ j, i ≤ j →
      (fillFrom ev.m_eventArgs 0 ((t :: args).take i)).getD j dA
        = ev.m_eventArgs.getD j dA := by
    intro j hj
    exact fillFrom_getD_ge _ _ _ _ (by rw [hlen_take]; omega)
  have hsvl : SetValuesList (initState ev) (t :: args)
      = { ev := { ev with
            m_eventArgs := fillFrom ev.m_eventArgs 0 ((t :: args).take i),
            m_argsCounter := -1 },
          calls := [],
          errs := [.mismatch ev.m_name (ev.m_eventArgs.getD i dA).m_name],
          oob := false } := by
    conv_lhs => rw [hidec]
    rw [SetValuesList_append, hfill]
    rw [SetValuesList_cons, if_neg (by simp [initState])]
    rw [SetValues1_mismatch_step _ ((t :: args).getD i dV) i rfl
      (by
        show i < (fillFrom ev.m_eventArgs 0 ((t :: args).take i)).length
        rw [fillFrom_length]
        exact hin)
      (by
        show ((t :: args).getD i dV).index
          ≠ ((fillFrom ev.m_eventArgs 0 ((t :: args).take i)).getD i dA).m_type.index
        rw [hgetfill i (le_refl i)]
        exact hmis)]
    rw [SetValuesList_of_neg1 _ _ rfl]
    simp only [initState, List.nil_append]
    rw [hgetfill i (le_refl i)]
  rw [Broadcast_of_svl ev t args _ hsvl]
  simp only []
  rw [if_neg (by simp)]
  rw [if_pos (Or.inl trivial)]
  refine ⟨rfl, ?_, ?_, rfl, rfl⟩
  · show [ErrReport.mismatch ev.m_name (ev.m_eventArgs.getD i dA).m_name]
        ++ [.argCount ev.m_name (-1)
              (fillFrom ev.m_eventArgs 0 ((t :: args).take i)).length]
      = _
    rw [fillFrom_length]
    rfl
  · intro j hj
    exact hgetfill j hj

/-- C2 witness: event with an Int then a Float slot; second supplied value
has the wrong kind. -/
theorem C2_mismatch_aborts_witness :
    (Broadcast { m_eventArgs := [⟨"a", .int 0⟩, ⟨"b", .float 0⟩], m_argsCounter := 0,
                 m_name := "E", subscribers := [4], isDynamic := false }
        (.int 9) [.bool true]).calls = []
    ∧ (Broadcast { m_eventArgs := [⟨"a", .int 0⟩, ⟨"b", .float 0⟩], m_argsCounter := 0,
                   m_name := "E", subscribers := [4], isDynamic := false }
        (.int 9) [.bool true]).errs
      = [.mismatch "E" "b", .argCount "E" (-1) 2] := by
  have h := C2_mismatch_aborts
    { m_eventArgs := [⟨"a", .int 0⟩, ⟨"b", .float 0⟩], m_argsCounter := 0,
      m_name := "E", subscribers := [4], isDynamic := false }
    (.int 9) [.bool true] 1 rfl (by decide) (by decide)
    (by decide) (by decide)
  exact ⟨h.1, h.2.1⟩

/-- C1: a variadic broadcast supplying exactly as many values as there are
slots, all kind-matching in order, invokes every subscriber exactly once in
registration order with the filled event as context, reports no error,
leaves every slot holding the value just broadcast into it (readable by
name through `GetValue` at the declared kind), and resets the fill counter
to 0; for an empty schema, the zero-argument broadcast likewise invokes all
subscribers once in order. -/
theorem C1_full_broadcast (ev : UGameEvent) (t : EventArgValue) (args : List EventArgValue)
    (h0 : ev.m_argsCounter = 0)
    (hlen : (t :: args).length = ev.m_eventArgs.length)
    (hm : ∀ i, i < (t :: args).length →
      ((t :: args).getD i dV).index = (ev.m_eventArgs.getD i dA).m_type.index)
    (hnd : (ev.m_eventArgs.map (fun a => a.m_name)).Nodup) :
    (Broadcast ev t args).calls
      = ev.subscribers.map (fun s =>
          (s, { ev with
                m_eventArgs := fillFrom ev.m_eventArgs 0 (t :: args),
                m_argsCounter := (ev.m_eventArgs.length : Int) })) ∧
    (Broadcast ev t args).errs = [] ∧
    (Broadcast ev t args).oob = false ∧
    (Broadcast ev t args).ev
      = { ev with
          m_eventArgs := fillFrom ev.m_eventArgs 0 (t :: args),
          m_argsCounter := 0 } ∧
    (∀ i, i < ev.m_eventArgs.length →
      (fillFrom ev.m_eventArgs 0 (t :: args)).getD i dA
        = ⟨(ev.m_eventArgs.getD i dA).m_name, (t :: args).getD i dV⟩) ∧
    (∀ i, i < ev.m_eventArgs.length → ∀ tdef : EventArgValue,
      tdef.index = (ev.m_eventArgs.getD i dA).m_type.index →
      GetValue { ev with
                 m_eventArgs := fillFrom ev.m_eventArgs 0 (t :: args),
                 m_argsCounter := (ev.m_eventArgs.length : Int) }
          tdef (ev.m_eventArgs.getD i dA).m_name
        = ((t :: args).getD i dV, none)) ∧
    (∀ ev0 : UGameEvent, ev0.m_eventArgs = [] →
      Broadcast0 ev0 = { ev := ev0, calls := ev0.subscribers.map (fun s => (s, ev0)),
                         errs := [], oob := false }) := by
  have hmid : ∀ i, i < ev.m_eventArgs.length →
      (fillFrom ev.m_eventArgs 0 (t :: args)).getD i dA
        = ⟨(ev.m_eventArgs.getD i dA).m_name, (t :: args).getD i dV⟩ := by
    intro i hi
    have := fillFrom_getD_mid (t :: args) ev.m_eventArgs 0 i (by omega) (by omega) hi
    simpa using this
  have hfill := SetValuesList_fill_complete (t :: args) (initState ev) 0 (by simp) rfl
    (by show ev.m_argsCounter = ((0 : Nat) : Int); simpa using h0)
    (by simpa using hlen)
    (by intro i hi; simpa using hm i hi)
  simp only [initState] at hfill
  rw [Broadcast_of_svl ev t args _ hfill]
  simp only []
  rw [if_neg (by simp)]
  rw [if_neg (by
    rw [fillFrom_length]
    omega)]
  refine ⟨rfl, rfl, rfl, rfl, hmid, ?_, fun ev0 _ => rfl⟩
  intro i hi tdef htd
  have hnd2 : ((fillFrom ev.m_eventArgs 0 (t :: args)).map (fun a => a.m_name)).Nodup := by
    rw [fillFrom_map_name]
    exact hnd
  have hfind := find?_name_of_nodup (fillFrom ev.m_eventArgs 0 (t :: args)) i
    (by rw [fillFrom_length]; exact hi) hnd2
  rw [hmid i hi] at hfind
  simp only [] at hfind
  unfold GetValue
  simp only []
  rw [hfind]
  simp only []
  rw [if_pos (by
    show ((t :: args).getD i dV).index = tdef.index
    rw [htd]
    exact hm i (by omega))]

/-- C1 witness: the spec scenario — one Float slot named `height`, one
subscriber, broadcast of 251.0. -/
theorem C1_full_broadcast_witness :
    (Broadcast { m_eventArgs := [⟨"height", .float 0⟩], m_argsCounter := 0,
                 m_name := "OnLanded", subscribers := [3],
                 isDynamic := false } (.float 251) []).calls
      = [(3, { m_eventArgs := [⟨"height", .float 251⟩], m_argsCounter := 1,
               m_name := "OnLanded", subscribers := [3], isDynamic := false })]
    ∧ GetValue { m_eventArgs := [⟨"height", .float 251⟩], m_argsCounter := 1,
                 m_name := "OnLanded", subscribers := [3], isDynamic := false }
        (.float 0) "height" = (.float 251, none) := by
  have h := C1_full_broadcast
    { m_eventArgs := [⟨"height", .float 0⟩], m_argsCounter := 0, m_name := "OnLanded",
      subscribers := [3], isDynamic := false }
    (.float 251) [] rfl (by decide) (by decide) (by decide)
  refine ⟨h.1.trans (by decide), ?_⟩
  have hg := h.2.2.2.2.2.1 0 (by decide) (.float 0) (by decide)
  exact Eq.trans (Eq.trans (by decide) hg) (by decide)

/-- C9: `SetValues` indexes `m_eventArgs[m_argsCounter]` with no bounds
guard. Supplying at most `Num()` values never reaches the out-of-bounds
branch; supplying more than `Num()` values whose first `Num()` kinds match
the schema drives the counter to `Num()` and reaches the out-of-bounds
access at index `Num()`. -/
theorem C9_unchecked_indexing (ev : UGameEvent) (t : EventArgValue) (args : List EventArgValue)
    (h0 : ev.m_argsCounter = 0) :
    ((t :: args).length ≤ ev.m_eventArgs.length → (Broadcast ev t args).oob = false) ∧
    (ev.m_eventArgs.length < (t :: args).length →
      (∀ i, i < ev.m_eventArgs.length →
        ((t :: args).getD i dV).index = (ev.m_eventArgs.getD i dA).m_type.index) →
      (Broadcast ev t args).oob = true) := by
  constructor
  · intro hle
    rw [Broadcast_oob_eq]
    refine SetValuesList_oob_safe (t :: args) (initState ev) rfl (Or.inr ⟨?_, ?_⟩)
    · show (0 : Int) ≤ ev.m_argsCounter
      rw [h0]
    · show ev.m_argsCounter + ((t :: args).length : Int) ≤ (ev.m_eventArgs.length : Int)
      rw [h0]
      omega
  · intro hgt hmatch
    rw [Broadcast_oob_eq]
    have hidec : t :: args
        = (t :: args).take ev.m_eventArgs.length
          ++ ((t :: args).getD ev.m_eventArgs.length dV
              :: (t :: args).drop (ev.m_eventArgs.length + 1)) := by
      conv_lhs => rw [← List.take_append_drop ev.m_eventArgs.length (t :: args)]
      rw [drop_getD_cons (t :: args) dV _ hgt]
    rw [hidec, SetValuesList_append]
    rcases Nat.eq_zero_or_pos ev.m_eventArgs.length with hz | hpos
    · rw [hz, List.take_zero]
      refine SetValuesList_overrun ((t :: args).getD 0 dV :: (t :: args).drop (0 + 1))
        (SetValuesList (initState ev) []) (by simp) rfl ?_
      show ev.m_argsCounter = (ev.m_eventArgs.length : Int)
      rw [h0, hz]
      rfl
    · have htne : (t :: args).take ev.m_eventArgs.length ≠ [] := by
        intro he
        have := congrArg List.length he
        simp only [List.length_take, List.length_nil] at this
        omega
      have hfill := SetValuesList_fill_complete ((t :: args).take ev.m_eventArgs.length)
        (initState ev) 0 htne rfl
        (by show ev.m_argsCounter = ((0 : Nat) : Int); simpa using h0)
        (by
          show 0 + ((t :: args).take ev.m_eventArgs.length).length = ev.m_eventArgs.length
          rw [List.length_take]
          omega)
        (by
          intro j hj
          have hjn : j < ev.m_eventArgs.length := by
            rw [List.length_take] at hj
            omega
          show (((t :: args).take ev.m_eventArgs.length).getD j dV).index
            = (ev.m_eventArgs.getD (0 + j) dA).m_type.index
          rw [getD_take_of_lt (t :: args) dV _ j hjn (by omega)]
          simpa using hmatch j hjn)
      rw [hfill]
      refine SetValuesList_overrun _ _ (by simp) rfl ?_
      show ((ev.m_eventArgs.length : Nat) : Int)
        = ((fillFrom ev.m_eventArgs 0 ((t :: args).take ev.m_eventArgs.length)).length : Int)
      rw [fillFrom_length]

/-- C9 witness: a one-Int-slot event; one value is safe, two matching
values reach the out-of-bounds access. -/
theorem C9_unchecked_indexing_witness :
    (Broadcast { m_eventArgs := [⟨"x", .int 0⟩], m_argsCounter := 0, m_name := "E",
                 subscribers := [], isDynamic := false } (.int 1) []).oob = false
    ∧ (Broadcast { m_eventArgs := [⟨"x", .int 0⟩], m_argsCounter := 0, m_name := "E",
                   subscribers := [], isDynamic := false } (.int 1) [.int 2]).oob = true := by
  have h1 := C9_unchecked_indexing
    { m_eventArgs := [⟨"x", .int 0⟩], m_argsCounter := 0, m_name := "E",
      subscribers := [], isDynamic := false } (.int 1) [] rfl
  have h2 := C9_unchecked_indexing
    { m_eventArgs := [⟨"x", .int 0⟩], m_argsCounter := 0, m_name := "E",
      subscribers := [], isDynamic := false } (.int 1) [.int 2] rfl
  exact ⟨h1.1 (by decide), h2.2 (by decide) (by decide)⟩

/-- C8, counterexample: the full `Setup` does not leave every slot at its
declared default. At rows containing the hard-coded demo names, `Setup`
completes and its demo tail has already broadcast 251.0 into
`OnPlayerLanded`'s Float slot and the manager pointer into
`OnWeaponFired`'s slot (also subscribing the demo lambda there) — the
`OnPlayerLanded` slot differs from the declared Float default and
`OnWeaponFired`'s subscriber list is non-empty. -/
theorem C8_cex :
    Setup 7 [("OnWeaponFired", ⟨false, [("GameEventManager", .UObjectPtr)]⟩),
             ("OnPlayerLanded", ⟨false, [("height", .Float)]⟩)]
      = some [("OnWeaponFired",
               { m_eventArgs := [⟨"GameEventManager", .uobject (some 7)⟩],
                 m_argsCounter := 0, m_name := "OnWeaponFired",
                 subscribers := [demoLambda], isDynamic := false }),
              ("OnPlayerLanded",
               { m_eventArgs := [⟨"height", .float 251⟩],
                 m_argsCounter := 0, m_name := "OnPlayerLanded",
                 subscribers := [], isDynamic := false })]
    ∧ (⟨"height", .float 251⟩ : CEventArg)
        ≠ ⟨"height", defaultArgType EEventArgTypes.Float⟩
    ∧ [demoLambda] ≠ ([] : List Nat) := by
  refine ⟨by rfl, by decide, by decide⟩

/-- C8 (amended): when the full `Setup` returns (it crashes unless rows
named `OnWeaponFired` and `OnPlayerLanded` exist and their demo broadcasts
stay in bounds), the registry maps every row whose name is neither
`OnWeaponFired` nor `OnPlayerLanded` to an event carrying that name, with
slots in the row's declared argument order, each holding its declared
kind's default-initialized variant and no subscribers; the two demo rows'
events still carry their row name and their declared slot name/kind
sequence, but their values (and `OnWeaponFired`'s subscriber list) have
been mutated by the demo tail. The per-kind defaults are 0 for Int/Enum8,
0.0 for Float, false for Bool, the empty string for Name/String, zero
vectors/rotation, and null references for object/actor/struct kinds. -/
theorem C8_build_registry (self : Nat) (rows : List (String × FEventDefinition))
    (hnd : (rows.map Prod.fst).Nodup)
    (r : Registry) (hr : Setup self rows = some r) :
    (∀ n row, (n, row) ∈ rows → n ≠ "OnWeaponFired" → n ≠ "OnPlayerLanded" →
      Get r n = some (buildEvent n row) ∧
      (buildEvent n row).m_name = n ∧
      (buildEvent n row).isDynamic = row.m_isDynamic ∧
      (buildEvent n row).m_argsCounter = 0 ∧
      (buildEvent n row).subscribers = [] ∧
      (buildEvent n row).m_eventArgs
        = row.m_args.map (fun p => ⟨p.1, defaultArgType p.2⟩)) ∧
    (∀ n row, (n, row) ∈ rows →
      ∃ ev, Get r n = some ev ∧ ev.m_name = n ∧
        ev.m_eventArgs.map (fun a => (a.m_name, a.m_type.index))
          = row.m_args.map (fun p => (p.1, (defaultArgType p.2).index))) ∧
    (defaultArgType .Int = .int 0 ∧ defaultArgType .Float = .float 0 ∧
     defaultArgType .Bool = .bool false ∧ defaultArgType .FName = .fname "" ∧
     defaultArgType .FString = .fstring "" ∧ defaultArgType .FVector = .fvector 0 0 0 ∧
     defaultArgType .FVector2D = .fvector2d 0 0 ∧
     defaultArgType .FRotator = .frotator 0 0 0 ∧
     defaultArgType .UObjectPtr = .uobject none ∧
     defaultArgType .AActorPtr = .aactor none ∧
     defaultArgType .UEnum = .uint8 0 ∧
     defaultArgType .CustomStruct = .structPtr none) := by
  obtain ⟨evWF, evPL, evWF2, hwf, hpl, hwf2, hreq⟩ :=
    setupTail_eq_some self (buildEvents rows) r hr
  have hfind : ∀ n row, (n, row) ∈ rows →
      tmapFind (buildEvents rows) n = some (buildEvent n row) := by
    intro n row hmem
    unfold tmapFind
    rw [buildEvents_nodup_eq rows hnd, find?_map_build rows n row hmem hnd]
    rfl
  have hother : ∀ n, n ≠ "OnWeaponFired" → n ≠ "OnPlayerLanded" →
      tmapFind r n = tmapFind (buildEvents rows) n := by
    intro n hW hP
    rw [hreq, tmapFind_tmapAdd_ne _ _ _ _ hW, tmapFind_tmapAdd_ne _ _ _ _ hP,
      tmapFind_tmapAdd_ne _ _ _ _ hW]
  refine ⟨?_, ?_, rfl, rfl, rfl, rfl, rfl, rfl, rfl, rfl, rfl, rfl, rfl, rfl⟩
  · intro n row hmem hW hP
    refine ⟨?_, rfl, rfl, rfl, rfl, rfl⟩
    show tmapFind r n = some (buildEvent n row)
    rw [hother n hW hP]
    exact hfind n row hmem
  · intro n row hmem
    have hsig : (buildEvent n row).m_eventArgs.map (fun a => (a.m_name, a.m_type.index))
        = row.m_args.map (fun p => (p.1, (defaultArgType p.2).index)) := by
      unfold buildEvent
      rw [List.map_map]
      rfl
    by_cases hW : n = "OnWeaponFired"
    · subst hW
      have hevWF : evWF = buildEvent "OnWeaponFired" row :=
        Option.some.inj (hwf.symm.trans (hfind _ row hmem))
      have hevWF2 : evWF2
          = { evWF with subscribers := evWF.subscribers ++ [demoLambda] } := by
        rw [tmapFind_tmapAdd_ne _ _ _ _ (by decide), tmapFind_tmapAdd_self] at hwf2
        exact (Option.some.inj hwf2).symm
      refine ⟨(Broadcast evWF2 (.uobject (some self)) []).ev, ?_, ?_, ?_⟩
      · show tmapFind r "OnWeaponFired" = _
        rw [hreq, tmapFind_tmapAdd_self]
      · rw [Broadcast_ev_name, hevWF2]
        show evWF.m_name = "OnWeaponFired"
        rw [hevWF]
        rfl
      · rw [Broadcast_map_sig, hevWF2]
        show evWF.m_eventArgs.map (fun a => (a.m_name, a.m_type.index)) = _
        rw [hevWF]
        exact hsig
    · by_cases hP : n = "OnPlayerLanded"
      · subst hP
        have hevPL : evPL = buildEvent "OnPlayerLanded" row := by
          rw [tmapFind_tmapAdd_ne _ _ _ _ (by decide)] at hpl
          exact Option.some.inj (hpl.symm.trans (hfind _ row hmem))
        refine ⟨(Broadcast evPL (.float 251) []).ev, ?_, ?_, ?_⟩
        · show tmapFind r "OnPlayerLanded" = _
          rw [hreq, tmapFind_tmapAdd_ne _ _ _ _ (by decide), tmapFind_tmapAdd_self]
        · rw [Broadcast_ev_name, hevPL]
          rfl
        · rw [Broadcast_map_sig, hevPL]
          exact hsig
      · refine ⟨buildEvent n row, ?_, rfl, hsig⟩
        show tmapFind r n = some (buildEvent n row)
        rw [hother n hW hP]
        exact hfind n row hmem

/-- C8 witness: a successful `Setup` over the two demo rows plus a row
`a` with one Float argument; `a`'s event is exactly the default-built one. -/
theorem C8_build_registry_witness :
    Get [("OnWeaponFired",
          { m_eventArgs := [⟨"GameEventManager", .uobject (some 7)⟩],
            m_argsCounter := 0, m_name := "OnWeaponFired",
            subscribers := [demoLambda], isDynamic := false }),
         ("OnPlayerLanded",
          { m_eventArgs := [⟨"height", .float 251⟩], m_argsCounter := 0,
            m_name := "OnPlayerLanded", subscribers := [], isDynamic := false }),
         ("a", buildEvent "a" ⟨false, [("x", EEventArgTypes.Float)]⟩)] "a"
      = some (buildEvent "a" ⟨false, [("x", EEventArgTypes.Float)]⟩)
    ∧ (buildEvent "a" (⟨false, [("x", EEventArgTypes.Float)]⟩ : FEventDefinition)).m_eventArgs
      = [⟨"x", .float 0⟩] := by
  have h := (C8_build_registry 7
    [("OnWeaponFired", ⟨false, [("GameEventManager", .UObjectPtr)]⟩),
     ("OnPlayerLanded", ⟨false, [("height", .Float)]⟩),
     ("a", ⟨false, [("x", .Float)]⟩)]
    (by decide)
    [("OnWeaponFired",
      { m_eventArgs := [⟨"GameEventManager", .uobject (some 7)⟩],
        m_argsCounter := 0, m_name := "OnWeaponFired",
        subscribers := [demoLambda], isDynamic := false }),
     ("OnPlayerLanded",
      { m_eventArgs := [⟨"height", .float 251⟩], m_argsCounter := 0,
        m_name := "OnPlayerLanded", subscribers := [], isDynamic := false }),
     ("a", buildEvent "a" ⟨false, [("x", EEventArgTypes.Float)]⟩)]
    (by rfl)).1 "a" ⟨false, [("x", EEventArgTypes.Float)]⟩
    (by decide) (by decide) (by decide)
  exact ⟨h.1, h.2.2.2.2.2.trans (by decide)⟩

end GEM
